import Mathlib

/-!
Shallow embedding of the three scripts of the agents-prediction repository
(fetch_morning_market_summaries.py, fetch_tiingo_news.py,
fetch_tiingo_top_articles.py) together with proofs about the claims on
their specification.  Python strings are modelled as Lean strings (lists
of unicode scalar values, matching Python code points for the inputs at
hand), Python dicts used as articles are modelled as a record with
optional fields, and the filesystem touched by the sinks is modelled as an
explicit state record.
-/

namespace AgentsPrediction

/-! ## Python string primitives -/

/-- Python str.lower, restricted to the per-character lowering that the
hard-coded ascii keyword lists exercise. -/
def pyLower (s : String) : String := ⟨s.data.map Char.toLower⟩

/-- Python substring membership test, needle in hay. -/
def pyContains (hay needle : String) : Bool :=
  decide (needle.data <:+: hay.data)

/-- Python str.strip(chars): remove every leading and every trailing
character that belongs to the given set.  Note that this removes runs of
such characters, not a single layer. -/
def pyStripChars (cs : List Char) (s : String) : String :=
  ⟨((s.data.dropWhile (cs.contains ·)).reverse.dropWhile (cs.contains ·)).reverse⟩

/-- Python str.strip() with no argument: remove leading and trailing
whitespace (covers the newline kept by file-line iteration). -/
def pyStripWs (s : String) : String :=
  ⟨((s.data.dropWhile Char.isWhitespace).reverse.dropWhile Char.isWhitespace).reverse⟩

/-- Python str.split(sep, 1) specialised to sep = the equals sign:
split at the first occurrence, returning the two halves. -/
def splitFirstEq (cs : List Char) : Option (List Char × List Char) :=
  match cs with
  | [] => none
  | c :: rest =>
    if c = '=' then some ([], rest)
    else (splitFirstEq rest).map (fun p => (c :: p.1, p.2))

/-- Python membership test for a single character in a string, modelling
the guard of the .env scanner. -/
def pyHasChar (s : String) (c : Char) : Bool := s.data.contains c

/-- Python str.startswith for a one-character needle: the first character
matches. -/
def pyStartsWith (s : String) (c : Char) : Bool := s.data.head? == some c

/-! ## Credential resolver (get_api_key, identical in the three scripts) -/

/-- Scan of the .env file lines performed by get_api_key: skip lines that
start with a hash or contain no equals sign; otherwise strip the line,
split on the first equals sign, and stop at the first line whose key is
TIINGO_API_KEY, returning its raw value. -/
def scanEnvLines : List String → Option String
  | [] => none
  | line :: rest =>
    if line = "" || pyStartsWith line '#' || !pyHasChar line '=' then
      scanEnvLines rest
    else
      match splitFirstEq (pyStripWs line).data with
      | none => scanEnvLines rest
      | some (k, v) =>
        if String.mk k = "TIINGO_API_KEY" then some (String.mk v)
        else scanEnvLines rest

/-- Embedding of get_api_key.  The process environment variable and the
optional .env file contents are passed in explicitly; the result is the
resolved token or the configuration error raised by the source. -/
def get_api_key (env : Option String) (envFile : Option (List String)) :
    Except String String :=
  let fromEnv := match env with
    | some v => if v = "" then none else some v
    | none => none
  let resolved := match fromEnv with
    | some v => some v
    | none =>
      match envFile with
      | some lines => scanEnvLines lines
      | none => none
  match resolved with
  | none => .error "TIINGO_API_KEY not found in environment or .env"
  | some v =>
    if v = "" then .error "TIINGO_API_KEY not found in environment or .env"
    else .ok (pyStripChars ['"', '\''] v)

/-- Reading of the spec sentence that C5 asserts: remove one single layer
of surrounding matching quotes, and nothing more.  Kept separate from the
source embedding so the two can be compared. -/
def stripOneQuoteLayer (s : String) : String :=
  match s.data with
  | [] => s
  | c :: rest =>
    if (c = '"' || c = '\'') && rest.getLast? = some c then
      ⟨rest.dropLast⟩
    else s

/-! ## Datetimes

Aware and naive datetimes as produced by datetime.fromisoformat, with the
civil-calendar arithmetic needed to compare instants and to convert to
US/Eastern wall-clock time under the post-2007 United States DST rule
implemented by the pytz US/Eastern zone for modern dates. -/

/-- Python datetime value: a wall-clock reading plus an optional UTC
offset in minutes (none models a naive datetime). -/
structure PyDateTime where
  year : Int
  month : Nat
  day : Nat
  hour : Nat
  minute : Nat
  second : Nat
  offsetMinutes : Option Int
deriving DecidableEq, Repr

/-- Gregorian leap-year test. -/
def isLeapYear (y : Int) : Bool := y % 4 = 0 && (y % 100 ≠ 0 || y % 400 = 0)

/-- Number of days of a month, as validated by datetime. -/
def daysInMonth (y : Int) (m : Nat) : Nat :=
  if m = 2 then (if isLeapYear y then 29 else 28)
  else if m = 4 || m = 6 || m = 9 || m = 11 then 30
  else 31

/-- Days elapsed since 1970-01-01 of a civil date (standard
era-decomposition algorithm; divisions are floor divisions). -/
def daysFromCivil (y : Int) (m d : Nat) : Int :=
  let y2 : Int := if m ≤ 2 then y - 1 else y
  let era : Int := y2 / 400
  let yoe : Int := y2 - era * 400
  let mp : Int := ((m : Int) + 9) % 12
  let doy : Int := (153 * mp + 2) / 5 + (d : Int) - 1
  let doe : Int := yoe * 365 + yoe / 4 - yoe / 100 + doy
  era * 146097 + doe - 719468

/-- Civil date of a count of days since 1970-01-01 (inverse of
daysFromCivil). -/
def civilFromDays (z0 : Int) : Int × Nat × Nat :=
  let z : Int := z0 + 719468
  let era : Int := z / 146097
  let doe : Int := z - era * 146097
  let yoe : Int := (doe - doe / 1460 + doe / 36524 - doe / 146096) / 365
  let y : Int := yoe + era * 400
  let doy : Int := doe - (365 * yoe + yoe / 4 - yoe / 100)
  let mp : Int := (5 * doy + 2) / 153
  let d : Int := doy - (153 * mp + 2) / 5 + 1
  let m : Int := if mp < 10 then mp + 3 else mp - 9
  (if m ≤ 2 then y + 1 else y, m.toNat, d.toNat)

/-- Weekday of a day count, 0 = Sunday (1970-01-01 was a Thursday). -/
def weekdayOfDays (d : Int) : Int := (d + 4) % 7

/-- Day of month of the first Sunday of a given month. -/
def firstSundayOfMonth (y : Int) (m : Nat) : Nat :=
  (1 + ((7 - weekdayOfDays (daysFromCivil y m 1)) % 7)).toNat

/-- UTC instant (seconds since the epoch) at which DST starts in
US/Eastern for a given year: second Sunday of March, 02:00 EST = 07:00
UTC. -/
def dstStartUTC (y : Int) : Int :=
  daysFromCivil y 3 (firstSundayOfMonth y 3 + 7) * 86400 + 7 * 3600

/-- UTC instant at which DST ends in US/Eastern for a given year: first
Sunday of November, 02:00 EDT = 06:00 UTC. -/
def dstEndUTC (y : Int) : Int :=
  daysFromCivil y 11 (firstSundayOfMonth y 11) * 86400 + 6 * 3600

/-- Year of a UTC instant. -/
def yearOfUTC (t : Int) : Int := (civilFromDays (t / 86400)).1

/-- UTC offset of the US/Eastern zone at a UTC instant, in seconds:
minus four hours during DST, minus five hours otherwise. -/
def easternOffsetSeconds (t : Int) : Int :=
  let y := yearOfUTC t
  if dstStartUTC y ≤ t && t < dstEndUTC y then -4 * 3600 else -5 * 3600

/-- Seconds since the epoch of a datetime interpreted with the given UTC
offset in minutes. -/
def epochOfWithOffset (dt : PyDateTime) (offMinutes : Int) : Int :=
  daysFromCivil dt.year dt.month dt.day * 86400
    + (dt.hour : Int) * 3600 + (dt.minute : Int) * 60 + (dt.second : Int)
    - offMinutes * 60

/-- Seconds since the epoch of a parsed datetime; a naive datetime is
interpreted at the ambient local offset, matching what astimezone does to
a naive value. -/
def epochOf (localOffMinutes : Int) (dt : PyDateTime) : Int :=
  epochOfWithOffset dt (dt.offsetMinutes.getD localOffMinutes)

/-- Seconds past local midnight of a UTC instant converted to US/Eastern
wall-clock time. -/
def easternTimeOfDay (t : Int) : Int :=
  (t + easternOffsetSeconds t) % 86400

/-! ## datetime.fromisoformat (on the shapes the scripts produce) -/

/-- Numeric value of an ascii digit. -/
def digitVal (c : Char) : Option Nat :=
  if c.isDigit then some (c.toNat - 48) else none

/-- Two ascii digits as a number. -/
def parse2 (a b : Char) : Option Nat :=
  match digitVal a, digitVal b with
  | some x, some y => some (10 * x + y)
  | _, _ => none

/-- Four ascii digits as a number. -/
def parse4 (a b c d : Char) : Option Nat :=
  match parse2 a b, parse2 c d with
  | some x, some y => some (100 * x + y)
  | _, _ => none

/-- Trailing UTC-offset part of an isoformat string: empty for a naive
datetime, or a sign followed by HH:MM. -/
def parseOffsetPart : List Char → Option (Option Int)
  | [] => some none
  | sgn :: o1 :: o2 :: ':' :: o3 :: o4 :: [] =>
    match parse2 o1 o2, parse2 o3 o4 with
    | some oh, some om =>
      if (sgn = '+' || sgn = '-') && oh ≤ 23 && om ≤ 59 then
        some (some ((if sgn = '-' then -1 else 1) * ((oh : Int) * 60 + om)))
      else none
    | _, _ => none
  | _ => none

/-- Embedding of datetime.fromisoformat on the YYYY-MM-DD*HH:MM:SS shape
(any single separator character, optional signed HH:MM offset), with the
range validation the constructor performs. -/
def fromisoformat (s : String) : Option PyDateTime :=
  match s.data with
  | y1 :: y2 :: y3 :: y4 :: '-' :: m1 :: m2 :: '-' :: d1 :: d2 :: _sep ::
      h1 :: h2 :: ':' :: n1 :: n2 :: ':' :: s1 :: s2 :: rest =>
    match parse4 y1 y2 y3 y4, parse2 m1 m2, parse2 d1 d2,
        parse2 h1 h2, parse2 n1 n2, parse2 s1 s2 with
    | some y, some mo, some dy, some h, some mi, some se =>
      if 1 ≤ mo && mo ≤ 12 && 1 ≤ dy && dy ≤ daysInMonth (y : Int) mo
          && h ≤ 23 && mi ≤ 59 && se ≤ 59 then
        (parseOffsetPart rest).map
          (fun off => ⟨(y : Int), mo, dy, h, mi, se, off⟩)
      else none
    | _, _, _, _, _, _ => none
  | _ => none

/-- Python str.replace of every letter Z by the +00:00 offset text, as
applied to publishedDate before parsing. -/
def replaceZ (s : String) : String :=
  ⟨s.data.flatMap (fun c => if c = 'Z' then "+00:00".data else [c])⟩

/-- Python str.endswith for the single letter Z. -/
def endsWithZ (s : String) : Bool := s.data.getLast? == some 'Z'

/-! ## strftime for the pattern used by the morning script -/

/-- Decimal digits of a number, zero-padded on the left to the given
width. -/
def padNum (width : Nat) (n : Nat) : String :=
  let s := toString n
  ⟨List.replicate (width - s.length) '0'⟩ ++ s

/-- Formatting of a UTC instant as eastern wall-clock text with the
pattern used at the is_pre_market enrichment, including the EST or EDT
zone abbreviation. -/
def formatEastern (t : Int) : String :=
  let off := easternOffsetSeconds t
  let loc := t + off
  let days := loc / 86400
  let tod := loc % 86400
  let c := civilFromDays days
  let zone := if off = -4 * 3600 then "EDT" else "EST"
  padNum 4 c.1.toNat ++ "-" ++ padNum 2 c.2.1 ++ "-" ++ padNum 2 c.2.2 ++ " "
    ++ padNum 2 (tod / 3600).toNat ++ ":" ++ padNum 2 ((tod / 60) % 60).toNat
    ++ ":" ++ padNum 2 (tod % 60).toNat ++ " " ++ zone

/-! ## Articles -/

/-- Mapping attached under the _market_relevance key by the morning
script.  The is_likely_summary entry is optional because the key is only
added by the keyword-filter pass. -/
structure MarketRelevance where
  published_time_eastern : String
  is_pre_market : Bool
  is_likely_summary : Option Bool
deriving DecidableEq, Repr

/-- Article record decoded from the API response.  Every field the
scripts consult is optional, mirroring dict.get on a loosely-typed JSON
object (none models both an absent key and a null value). -/
structure Article where
  id : Option String
  title : Option String
  description : Option String
  publishedDate : Option String
  source : Option String
  url : Option String
  marketRelevance : Option MarketRelevance
deriving DecidableEq, Repr

/-! ## Deduplication by id (dict comprehension keyed on article id) -/

/-- Single insertion into an insertion-ordered dict: an existing key is
updated in place keeping its position, a new key is appended at the
end. -/
def dictInsert : List (String × Article) → String → Article →
    List (String × Article)
  | [], k, v => [(k, v)]
  | p :: rest, k, v =>
    if p.1 = k then (k, v) :: rest else p :: dictInsert rest k v

/-- Left-to-right build of the id-keyed dict; an article without an id
raises the KeyError that the dict comprehension would raise. -/
def buildById (acc : List (String × Article)) :
    List Article → Except String (List (String × Article))
  | [] => .ok acc
  | a :: rest =>
    match a.id with
    | none => .error "KeyError: id"
    | some k => buildById (dictInsert acc k a) rest

/-- Embedding of the dict comprehension removing duplicate ids, returning
the dict values in insertion order. -/
def unique_articles (l : List Article) : Except String (List Article) :=
  (buildById [] l).map (List.map Prod.snd)

/-! ## Time-of-day filter (before 09:30 US/Eastern) -/

/-- Market open, 09:30, as seconds past midnight. -/
def market_open_secs : Int := 9 * 3600 + 30 * 60

/-- UTC instant of the published date string as the filter parses it: a
string ending in Z has every Z replaced by +00:00 first, otherwise the
string is parsed directly; a naive result is interpreted at the ambient
local offset as astimezone would. -/
def parsePublishedForFilter (localOff : Int) (s : String) : Option Int :=
  (if endsWithZ s then fromisoformat (replaceZ s) else fromisoformat s).map
    (epochOf localOff)

/-- Per-article step of the time filter: skip an absent or empty
publishedDate, drop an unparseable one, and retain an article whose
eastern wall-clock time is strictly before market open, enriching it with
the _market_relevance mapping. -/
def timeFilterStep (localOff : Int) (a : Article) : Option Article :=
  if a.publishedDate.getD "" = "" then none
  else
    match parsePublishedForFilter localOff (a.publishedDate.getD "") with
    | none => none
    | some t =>
      if easternTimeOfDay t < market_open_secs then
        some
          { a with
            marketRelevance := some (MarketRelevance.mk (formatEastern t) true none) }
      else none

/-- Articles published before market open, in input order. -/
def morning_articles (localOff : Int) (l : List Article) : List Article :=
  l.filterMap (timeFilterStep localOff)

/-! ## Keyword filter -/

/-- Single-quote character as a one-letter string, used to spell two
keywords that contain it. -/
def sq : String := String.mk ['\'']

/-- Hard-coded market-summary keyword list. -/
def market_summary_keywords : List String :=
  ["morning brief", "before the bell", "pre-market", "premarket",
   "futures", "market preview", "stocks to watch", "morning update",
   "morning briefing", "need to know", "trading day ahead", "morning bid",
   "market outlook", "today" ++ sq ++ "s market", "what to watch",
   "morning markets", "opening bell", "stock futures", "dow futures",
   "nasdaq futures", "s&p futures", "markets today", "5 things to know",
   "top stories"]

/-- Keyword test of an article: some keyword occurs in the lowered title
or the lowered description. -/
def keywordMatch (a : Article) : Bool :=
  let t := pyLower (a.title.getD "")
  let d := pyLower (a.description.getD "")
  market_summary_keywords.any (fun k => pyContains t k || pyContains d k)

/-- Per-article step of the keyword filter: a matching article gets
is_likely_summary set to true inside its _market_relevance mapping. -/
def keywordStep (a : Article) : Option Article :=
  if keywordMatch a then
    some { a with marketRelevance :=
      a.marketRelevance.map (fun mr => { mr with is_likely_summary := some true }) }
  else none

/-- Likely market-summary articles, in input order. -/
def summary_articles_of (l : List Article) : List Article :=
  l.filterMap keywordStep

/-! ## Ranking (stable multi-key descending sort) -/

/-- Lowered title of an article, as each sort-key component reads it. -/
def lowerTitle (a : Article) : String := pyLower (a.title.getD "")

/-- Timestamp component of the sort key: the published date with every Z
replaced by +00:00, parsed, taken as an instant (aware datetimes compare
as instants; a naive one is read at the ambient offset).  An unparseable
date cannot reach this stage, its image is irrelevant. -/
def rankTs (localOff : Int) (a : Article) : Int :=
  ((fromisoformat (replaceZ (a.publishedDate.getD ""))).map
    (epochOf localOff)).getD 0

/-- Sort key of the ranking: four phrase indicators over the title, then
the publish instant. -/
def rankKey (localOff : Int) (a : Article) : Nat × Nat × Nat × Nat × Int :=
  (if pyContains (lowerTitle a) "before the bell" then 1 else 0,
   if pyContains (lowerTitle a) "morning brief" then 1 else 0,
   if pyContains (lowerTitle a) "market preview" then 1 else 0,
   if pyContains (lowerTitle a) "futures" then 1 else 0,
   rankTs localOff a)

/-- Lexicographic order on sort keys (tuple comparison). -/
def keyLe : (Nat × Nat × Nat × Nat × Int) → (Nat × Nat × Nat × Nat × Int) → Bool
  | (a1, a2, a3, a4, a5), (b1, b2, b3, b4, b5) =>
    decide (a1 < b1 ∨ (a1 = b1 ∧ (a2 < b2 ∨ (a2 = b2 ∧ (a3 < b3 ∨ (a3 = b3 ∧
      (a4 < b4 ∨ (a4 = b4 ∧ a5 ≤ b5))))))))

/-- Comparator of the descending stable sort: an article precedes another
when its key is lexicographically at least the other key (list.sort with
reverse true is the stable sort under the reversed comparisons). -/
def rankLe (localOff : Int) (a b : Article) : Bool :=
  keyLe (rankKey localOff b) (rankKey localOff a)

/-- Embedding of the in-place stable descending sort of the summary
articles. -/
def rankSort (localOff : Int) (l : List Article) : List Article :=
  l.mergeSort (rankLe localOff)

/-- Value returned by fetch_morning_market_summaries after fetching:
the ranked summary articles, or the whole time-filtered collection when
the keyword filter matched nothing. -/
def morningReturn (localOff : Int) (morning : List Article) : List Article :=
  let s := rankSort localOff (summary_articles_of morning)
  if s = [] then morning else s

/-- Filter stages of fetch_morning_market_summaries applied to the
fetched collection: deduplicate, time-filter, keyword-filter with
fallback; the KeyError of the deduplication propagates. -/
def morningPipeline (localOff : Int) (fetched : List Article) :
    Except String (List Article) :=
  (unique_articles fetched).map
    (fun u => morningReturn localOff (morning_articles localOff u))

/-! ## Fetcher -/

/-- Outcome of one HTTP fetch against the news endpoint. -/
inductive FetchOutcome where
  | ok (articles : List Article)
  | httpError (status : Nat) (reason : String)
  | transportError (reason : String)
deriving DecidableEq, Repr

/-- Whether an outcome is a failure. -/
def FetchOutcome.isError : FetchOutcome → Bool
  | .ok _ => false
  | _ => true

/-- Body of the per-ticker loop of the morning script: a successful fetch
extends the accumulator, any error is logged and the loop continues with
the accumulator unchanged. -/
def tickerLoopStep (responses : String → FetchOutcome)
    (acc : List Article) (ticker : String) : List Article :=
  match responses ticker with
  | .ok data => acc ++ data
  | .httpError _ _ => acc
  | .transportError _ => acc

/-- The whole per-ticker accumulation loop. -/
def tickerLoop (responses : String → FetchOutcome) (acc : List Article)
    (tickers : List String) : List Article :=
  tickers.foldl (tickerLoopStep responses) acc

/-- Embedding of the one-shot fetchers (fetch_news_articles and
fetch_tiingo_top_articles): any fetch error is re-raised as a runtime
error, aborting the run without returning articles. -/
def oneShotFetch (outcome : FetchOutcome) : Except String (List Article) :=
  match outcome with
  | .ok data => .ok data
  | .httpError status reason =>
    .error ("HTTP error fetching news: " ++ toString status ++ " " ++ reason)
  | .transportError reason =>
    .error ("URL error fetching news: " ++ reason)

/-! ## Sink: filesystem model, JSON writing, console preview -/

/-- Filesystem state: the set of existing directories and the written
files with their contents. -/
structure FileSystem where
  dirs : List String
  files : List (String × String)
deriving DecidableEq, Repr

/-- Index just past the last slash of a path (0 when there is none),
mirroring rfind in posixpath.dirname. -/
def lastSlashEnd (cs : List Char) : Nat :=
  match cs with
  | [] => 0
  | c :: rest =>
    let r := lastSlashEnd rest
    if r = 0 then (if c = '/' then 1 else 0) else r + 1

/-- Embedding of os.path.dirname for posix paths: everything before the
last slash, with trailing slashes stripped unless the head is all
slashes. -/
def dirname (p : String) : String :=
  let cs := p.data
  let head := cs.take (lastSlashEnd cs)
  if head ≠ [] && head.any (· ≠ '/') then
    ⟨(head.reverse.dropWhile (· = '/')).reverse⟩
  else ⟨head⟩

/-- Embedding of os.makedirs with exist_ok: the directory becomes
existing. -/
def makedirs (d : String) (fs : FileSystem) : FileSystem :=
  { fs with dirs := d :: fs.dirs }

/-- Whether opening a path for writing succeeds: its parent directory
exists (an empty dirname means the current directory). -/
def canOpenWrite (fs : FileSystem) (p : String) : Bool :=
  dirname p = "" || fs.dirs.contains (dirname p)

/-- File write, replacing previous content at the path. -/
def writeFile (fs : FileSystem) (p content : String) : FileSystem :=
  { fs with files := (p, content) :: fs.files.filter (fun q => q.1 ≠ p) }

/-- Sink of fetch_tiingo_top_articles: create the parent directory of the
output path, then write; the write can no longer fail on a missing
parent. -/
def topArticlesSink (fs : FileSystem) (out content : String) : FileSystem :=
  let fs1 := makedirs (dirname out) fs
  writeFile fs1 out content

/-- Sink of fetch_morning_market_summaries (and of fetch_tiingo_news):
open the output path directly; a failing open is caught and logged and
the filesystem is left unchanged. -/
def morningSink (fs : FileSystem) (out content : String) : FileSystem :=
  if canOpenWrite fs out then writeFile fs out content else fs

/-- Hard-coded output path of the morning script. -/
def morningOutputPath : String :=
  "/Users/David/git/agents-prediction/data/morning_market_summaries.json"

/-- Console preview slice: the first ten articles. -/
def previewSlice (l : List Article) : List Article := l.take 10

/-- Description truncation of the console preview: a description longer
than 150 characters is cut to its first 147 characters plus a
three-dot ellipsis. -/
def truncateDescription (d : String) : String :=
  if d.length > 150 then ⟨d.data.take 147⟩ ++ "..." else d

/-! ## JSON serialization of the saved article list -/

/-- Escaping of quote and backslash inside a JSON string. -/
def jsonEscape (s : String) : String :=
  ⟨s.data.flatMap (fun c => if c = '"' || c = '\\' then ['\\', c] else [c])⟩

/-- A JSON string literal. -/
def jsonStr (s : String) : String := "\"" ++ jsonEscape s ++ "\""

/-- An optional text field as JSON. -/
def jsonOpt : Option String → String
  | none => "null"
  | some s => jsonStr s

/-- A boolean as JSON. -/
def jsonBool (b : Bool) : String := if b then "true" else "false"

/-- The _market_relevance mapping as a JSON object. -/
def jsonOfRelevance (mr : MarketRelevance) : String :=
  "\x7b\"published_time_eastern\": " ++ jsonStr mr.published_time_eastern
    ++ ", \"is_pre_market\": " ++ jsonBool mr.is_pre_market
    ++ (match mr.is_likely_summary with
        | none => ""
        | some b => ", \"is_likely_summary\": " ++ jsonBool b)
    ++ "\x7d"

/-- One article as a JSON object over the consumed fields. -/
def jsonOfArticle (a : Article) : String :=
  "\x7b\"id\": " ++ jsonOpt a.id
    ++ ", \"title\": " ++ jsonOpt a.title
    ++ ", \"description\": " ++ jsonOpt a.description
    ++ ", \"publishedDate\": " ++ jsonOpt a.publishedDate
    ++ ", \"source\": " ++ jsonOpt a.source
    ++ ", \"url\": " ++ jsonOpt a.url
    ++ (match a.marketRelevance with
        | none => ""
        | some mr => ", \"_market_relevance\": " ++ jsonOfRelevance mr)
    ++ "\x7d"

/-- The saved article array as JSON text. -/
def serializeArticles (l : List Article) : String :=
  "[" ++ String.intercalate ", " (l.map jsonOfArticle) ++ "]"

/-- Embedding of the main function of the morning script around its
filter stages and file sink: an exception escaping the pipeline is caught
by the outermost handler, printed, and nothing is written; an empty
result returns before the sink; otherwise the article list is serialized
to the hard-coded output path. -/
def morningMain (localOff : Int) (fetched : List Article)
    (fs : FileSystem) : FileSystem :=
  match morningPipeline localOff fetched with
  | .error _ => fs
  | .ok arts =>
    if arts = [] then fs
    else morningSink fs morningOutputPath (serializeArticles arts)

/-! ## Concrete articles used by counterexamples and witnesses -/

/-- Article published 2024-03-01 14:00 UTC, which is 09:00 eastern. -/
def articleAt1400Z : Article :=
  { id := some "a14", title := some "midmorning note", description := none,
    publishedDate := some "2024-03-01T14:00:00Z", source := none,
    url := none, marketRelevance := none }

/-- Article published 2024-03-01 15:00 UTC, which is 10:00 eastern. -/
def articleAt1500Z : Article :=
  { id := some "a15", title := some "midmorning note", description := none,
    publishedDate := some "2024-03-01T15:00:00Z", source := none,
    url := none, marketRelevance := none }

/-- Pre-market article whose title and description match no summary
keyword. -/
def articleNoKeyword : Article :=
  { id := some "n1", title := some "hello world", description := none,
    publishedDate := some "2024-03-01T08:00:00Z", source := none,
    url := none, marketRelevance := none }

/-- Pre-market article whose title matches the futures keyword. -/
def articleFutures : Article :=
  { id := some "f1", title := some "Stocks to Watch: Futures update",
    description := none, publishedDate := some "2024-03-01T08:00:00Z",
    source := none, url := none, marketRelevance := none }

/-- Article lacking the id key. -/
def articleNoId : Article :=
  { id := none, title := some "no id here", description := none,
    publishedDate := some "2024-03-01T08:00:00Z", source := none,
    url := none, marketRelevance := none }

/-- Filesystem in which the data directory of the hard-coded output path
does not exist. -/
def fsNoDataDir : FileSystem := { dirs := ["/Users"], files := [] }

/-- The no-keyword article as the time filter enriches it. -/
def articleNoKeywordEnriched : Article :=
  { articleNoKeyword with
    marketRelevance :=
      some (MarketRelevance.mk "2024-03-01 03:00:00 EST" true none) }

/-- The futures article as the time filter enriches it. -/
def articleFuturesEnriched : Article :=
  { articleFutures with
    marketRelevance :=
      some (MarketRelevance.mk "2024-03-01 03:00:00 EST" true none) }

/-- The futures article as the keyword filter marks it. -/
def articleFuturesSummary : Article :=
  { articleFutures with
    marketRelevance :=
      some (MarketRelevance.mk "2024-03-01 03:00:00 EST" true (some true)) }

/-- Two fetched records sharing one id, differing elsewhere. -/
def dupFirst : Article :=
  { id := some "d1", title := some "first copy", description := none,
    publishedDate := some "2024-03-01T08:00:00Z", source := none,
    url := none, marketRelevance := none }

/-- Later record with the same id as dupFirst. -/
def dupSecond : Article :=
  { id := some "d1", title := some "second copy", description := none,
    publishedDate := some "2024-03-01T08:05:00Z", source := none,
    url := none, marketRelevance := none }

/-- Response oracle in which the SPY fetch fails with a server error and
every other ticker succeeds. -/
def respSpyFails (t : String) : FetchOutcome :=
  if t = "SPY" then .httpError 500 "Internal Server Error"
  else .ok [articleFutures]

/-- A 151-character description. -/
def longDescription : String := String.mk (List.replicate 151 'x')

/-! ## Helper lemmas -/

set_option maxRecDepth 100000

/-- Head-cons form of getLast? through Option.or. -/
theorem getLast?_or_cons {α : Type} (a : α) (l : List α) :
    (a :: l).getLast? = l.getLast?.or (some a) := by
  cases h : l.getLast? <;> simp [List.getLast?_cons, h]

/-- Looking up the inserted key finds the inserted value. -/
theorem dictInsert_lookup_self (m : List (String × Article)) (k : String)
    (v : Article) : List.lookup k (dictInsert m k v) = some v := by
  induction m with
  | nil => simp [dictInsert, List.lookup]
  | cons p rest ih =>
    by_cases h : p.1 = k
    · simp [dictInsert, h, List.lookup]
    · have hk : (k == p.1) = false := beq_eq_false_iff_ne.mpr (Ne.symm h)
      simp [dictInsert, h, List.lookup, hk, ih]

/-- Looking up another key is unchanged by an insertion. -/
theorem dictInsert_lookup_ne (m : List (String × Article)) {k q : String}
    (v : Article) (hne : q ≠ k) :
    List.lookup q (dictInsert m k v) = List.lookup q m := by
  induction m with
  | nil =>
    have hk : (q == k) = false := beq_eq_false_iff_ne.mpr hne
    simp [dictInsert, List.lookup, hk]
  | cons p rest ih =>
    by_cases h : p.1 = k
    · subst h
      have hk : (q == p.1) = false := beq_eq_false_iff_ne.mpr hne
      simp [dictInsert, List.lookup, hk]
    · by_cases hq : q = p.1
      · subst hq
        simp [dictInsert, h, List.lookup]
      · have hqp : (q == p.1) = false := beq_eq_false_iff_ne.mpr hq
        simp [dictInsert, h, List.lookup, hqp, ih]

/-- Keys of an insertion are among the old keys and the inserted key. -/
theorem dictInsert_keys_subset (m : List (String × Article)) (k : String)
    (v : Article) {x : String} (hx : x ∈ (dictInsert m k v).map Prod.fst) :
    x ∈ m.map Prod.fst ∨ x = k := by
  induction m with
  | nil => simpa [dictInsert] using hx
  | cons p rest ih =>
    by_cases h : p.1 = k
    · simp only [dictInsert, h, if_pos] at hx
      rcases (by simpa using hx) with hk | hmem
      · exact Or.inr hk
      · exact Or.inl (by simp [hmem])
    · simp only [dictInsert, h, if_neg, not_false_iff] at hx
      rcases (by simpa using hx) with hk | hmem
      · exact Or.inl (by simp [hk])
      · rcases ih (by simpa using hmem) with hm | hk
        · exact Or.inl (by simp; right; simpa using hm)
        · exact Or.inr hk

/-- Insertion preserves distinctness of the keys. -/
theorem dictInsert_keys_nodup (m : List (String × Article)) (k : String)
    (v : Article) (h : (m.map Prod.fst).Nodup) :
    ((dictInsert m k v).map Prod.fst).Nodup := by
  induction m with
  | nil => simp [dictInsert]
  | cons p rest ih =>
    simp only [List.map_cons, List.nodup_cons] at h
    by_cases hp : p.1 = k
    · subst hp
      simpa [dictInsert, List.nodup_cons] using h
    · simp only [dictInsert, if_neg hp, List.map_cons, List.nodup_cons]
      refine ⟨?_, ih h.2⟩
      intro hmem
      rcases dictInsert_keys_subset rest k v hmem with hm | hk
      · exact h.1 hm
      · exact hp hk

/-- Insertion of a value carrying its own key as id preserves the
key-matches-id invariant of the dict entries. -/
theorem dictInsert_id_inv (m : List (String × Article)) (k : String)
    (v : Article) (hinv : ∀ p ∈ m, p.2.id = some p.1)
    (hv : v.id = some k) :
    ∀ p ∈ dictInsert m k v, p.2.id = some p.1 := by
  induction m with
  | nil => simpa [dictInsert] using hv
  | cons q rest ih =>
    by_cases h : q.1 = k
    · simp only [dictInsert, if_pos h]
      intro p hp
      rcases (by simpa using hp) with rfl | hmem
      · simpa using hv
      · exact hinv p (by simp [hmem])
    · simp only [dictInsert, if_neg h]
      intro p hp
      rcases (by simpa using hp) with rfl | hmem
      · exact hinv p (by simp)
      · exact ih (fun q hq => hinv q (by simp [hq])) p hmem

/-- A successful lookup names an entry of the association list. -/
theorem lookup_mem {m : List (String × Article)} {k : String} {v : Article}
    (h : List.lookup k m = some v) : (k, v) ∈ m := by
  induction m with
  | nil => simp [List.lookup] at h
  | cons p rest ih =>
    obtain ⟨p1, p2⟩ := p
    by_cases hk : k = p1
    · subst hk
      simp only [List.lookup, beq_self_eq_true] at h
      obtain rfl : p2 = v := by simpa using h
      exact List.mem_cons_self _ _
    · have hkp : (k == p1) = false := beq_eq_false_iff_ne.mpr hk
      simp only [List.lookup, hkp] at h
      exact List.mem_cons_of_mem _ (ih h)

/-- With distinct keys, every entry is found by lookup. -/
theorem mem_lookup_of_nodup {m : List (String × Article)} {k : String}
    {v : Article} (hnd : (m.map Prod.fst).Nodup) (hmem : (k, v) ∈ m) :
    List.lookup k m = some v := by
  induction m with
  | nil => simp at hmem
  | cons p rest ih =>
    simp only [List.map_cons, List.nodup_cons] at hnd
    rcases (by simpa using hmem) with h | hmem2
    · rw [show p = (k, v) from h.symm]
      simp [List.lookup]
    · have hk : k ≠ p.1 := by
        intro hkp
        apply hnd.1
        rw [← hkp]
        exact List.mem_map.mpr ⟨(k, v), hmem2, rfl⟩
      have hkp : (k == p.1) = false := beq_eq_false_iff_ne.mpr hk
      simp only [List.lookup, hkp]
      exact ih hnd.2 hmem2

/-- The dict build succeeds exactly on article lists whose every member
carries an id. -/
theorem buildById_ok (l : List Article) :
    ∀ acc : List (String × Article), (∀ a ∈ l, a.id.isSome = true) →
      ∃ m, buildById acc l = .ok m := by
  induction l with
  | nil => exact fun acc _ => ⟨acc, rfl⟩
  | cons a rest ih =>
    intro acc hids
    have ha := hids a (by simp)
    rcases hk : a.id with _ | k
    · rw [hk] at ha
      simp at ha
    · rcases ih (dictInsert acc k a) (fun x hx => hids x (by simp [hx]))
        with ⟨m, hm⟩
      exact ⟨m, by simpa [buildById, hk] using hm⟩

/-- Lookup in the built dict: the value under a key is the last input
article with that id, with the starting accumulator as fallback. -/
theorem buildById_lookup (l : List Article) :
    ∀ (acc m : List (String × Article)) (k : String),
      buildById acc l = .ok m →
      List.lookup k m =
        ((l.filter (fun x => x.id == some k)).getLast?).or
          (List.lookup k acc) := by
  induction l with
  | nil =>
    intro acc m k h
    cases h
    simp [Option.none_or]
  | cons a rest ih =>
    intro acc m k h
    rcases hk : a.id with _ | ka
    · rw [show buildById acc (a :: rest) = .error "KeyError: id" from by
        simp [buildById, hk]] at h
      cases h
    · have h2 : buildById (dictInsert acc ka a) rest = .ok m := by
        simpa [buildById, hk] using h
      by_cases hka : ka = k
      · subst hka
        have hpred : (a.id == some ka) = true := by simp [hk]
        rw [List.filter_cons, if_pos hpred, getLast?_or_cons,
          Option.or_assoc]
        have hsome : (some a).or (List.lookup ka acc) = some a := rfl
        rw [hsome, ih (dictInsert acc ka a) m ka h2,
          dictInsert_lookup_self]
      · have hpred : (a.id == some k) = false := by
          rw [hk]
          exact beq_eq_false_iff_ne.mpr (by simpa using hka)
        rw [List.filter_cons, if_neg (by simp [hpred]),
          ih (dictInsert acc ka a) m k h2,
          dictInsert_lookup_ne acc a (Ne.symm hka)]

/-- The built dict has distinct keys. -/
theorem buildById_nodup (l : List Article) :
    ∀ (acc m : List (String × Article)), (acc.map Prod.fst).Nodup →
      buildById acc l = .ok m → (m.map Prod.fst).Nodup := by
  induction l with
  | nil =>
    intro acc m hnd h
    cases h
    exact hnd
  | cons a rest ih =>
    intro acc m hnd h
    rcases hk : a.id with _ | ka
    · rw [show buildById acc (a :: rest) = .error "KeyError: id" from by
        simp [buildById, hk]] at h
      cases h
    · exact ih (dictInsert acc ka a) m
        (dictInsert_keys_nodup acc ka a hnd)
        (by simpa [buildById, hk] using h)

/-- Every entry of the built dict pairs an id with an article carrying
that id. -/
theorem buildById_id_inv (l : List Article) :
    ∀ (acc m : List (String × Article)),
      (∀ p ∈ acc, p.2.id = some p.1) → buildById acc l = .ok m →
      ∀ p ∈ m, p.2.id = some p.1 := by
  induction l with
  | nil =>
    intro acc m hinv h
    cases h
    exact hinv
  | cons a rest ih =>
    intro acc m hinv h
    rcases hk : a.id with _ | ka
    · rw [show buildById acc (a :: rest) = .error "KeyError: id" from by
        simp [buildById, hk]] at h
      cases h
    · exact ih (dictInsert acc ka a) m
        (dictInsert_id_inv acc ka a hinv hk)
        (by simpa [buildById, hk] using h)

/-- The lexicographic key order is reflexive. -/
theorem keyLe_refl (x : Nat × Nat × Nat × Nat × Int) : keyLe x x = true := by
  obtain ⟨a1, a2, a3, a4, a5⟩ := x
  simp [keyLe]

/-- The lexicographic key order is total. -/
theorem keyLe_total (x y : Nat × Nat × Nat × Nat × Int) :
    (keyLe x y || keyLe y x) = true := by
  obtain ⟨a1, a2, a3, a4, a5⟩ := x
  obtain ⟨b1, b2, b3, b4, b5⟩ := y
  simp only [keyLe, Bool.or_eq_true, decide_eq_true_eq]
  omega

/-- The lexicographic key order is transitive. -/
theorem keyLe_trans (x y z : Nat × Nat × Nat × Nat × Int)
    (hxy : keyLe x y = true) (hyz : keyLe y z = true) :
    keyLe x z = true := by
  obtain ⟨a1, a2, a3, a4, a5⟩ := x
  obtain ⟨b1, b2, b3, b4, b5⟩ := y
  obtain ⟨c1, c2, c3, c4, c5⟩ := z
  simp only [keyLe, decide_eq_true_eq] at hxy hyz ⊢
  omega

/-- The ranking comparator is total. -/
theorem rankLe_total (off : Int) (a b : Article) :
    (rankLe off a b || rankLe off b a) = true := by
  unfold rankLe
  rw [Bool.or_comm]
  exact keyLe_total (rankKey off a) (rankKey off b)

/-- The ranking comparator is transitive. -/
theorem rankLe_trans (off : Int) (a b c : Article)
    (hab : rankLe off a b = true) (hbc : rankLe off b c = true) :
    rankLe off a c = true := by
  unfold rankLe at hab hbc ⊢
  exact keyLe_trans _ _ _ hbc hab

/-- With an empty keyword-filter result the fallback collection is
returned unchanged. -/
theorem morningReturn_of_nil {off : Int} {m : List Article}
    (h : summary_articles_of m = []) : morningReturn off m = m := by
  unfold morningReturn rankSort
  rw [h, List.mergeSort_nil]
  rfl

/-- With a nonempty keyword-filter result the returned list is the sorted
keyword selection. -/
theorem morningReturn_of_ne {off : Int} {m : List Article}
    (h : summary_articles_of m ≠ []) :
    morningReturn off m = rankSort off (summary_articles_of m) := by
  unfold morningReturn
  rw [if_neg ?_]
  intro he
  apply h
  have hp := List.mergeSort_perm (summary_articles_of m) (rankLe off)
  rw [show rankSort off (summary_articles_of m)
      = (summary_articles_of m).mergeSort (rankLe off) from rfl] at he
  rw [he] at hp
  exact hp.symm.eq_nil

/-- Every article the time filter retains carries the freshly attached
pre-market relevance mapping. -/
theorem mem_morning_articles {off : Int} {l : List Article} {a : Article}
    (h : a ∈ morning_articles off l) :
    ∃ t : Int, a.marketRelevance =
      some (MarketRelevance.mk (formatEastern t) true none) := by
  rcases List.mem_filterMap.mp h with ⟨x, _, hstep⟩
  unfold timeFilterStep at hstep
  split at hstep
  · cases hstep
  · split at hstep
    · cases hstep
    · split at hstep
      · cases hstep
        exact ⟨_, rfl⟩
      · cases hstep

/-- Every article the keyword filter retains has is_likely_summary set
inside a relevance mapping inherited from the time filter. -/
theorem mem_summary_articles {off : Int} {l : List Article} {a : Article}
    (h : a ∈ summary_articles_of (morning_articles off l)) :
    ∃ t : Int, a.marketRelevance =
      some (MarketRelevance.mk (formatEastern t) true (some true)) := by
  rcases List.mem_filterMap.mp h with ⟨x, hx, hstep⟩
  rcases mem_morning_articles hx with ⟨t, hmr⟩
  unfold keywordStep at hstep
  split at hstep
  · refine ⟨t, ?_⟩
    cases hstep
    simp [hmr]
  · cases hstep

/-! ## Claims -/

/-- C1: for every article whose publishedDate parses to a timezone-aware
instant (a trailing Z being reinterpreted as the +00:00 offset), the
time-of-day filter retains the article exactly when its publish instant,
converted to US Eastern wall-clock time, is strictly before 09:30; in
particular the 2024-03-01T14:00:00Z article (09:00 eastern) is retained
and the 2024-03-01T15:00:00Z article (10:00 eastern) is excluded. -/
theorem c1_time_filter_before_open :
    (∀ (off : Int) (a : Article) (s : String) (dt : PyDateTime) (o : Int),
        a.publishedDate = some s → s ≠ "" →
        (if endsWithZ s then fromisoformat (replaceZ s)
          else fromisoformat s) = some dt →
        dt.offsetMinutes = some o →
        ((timeFilterStep off a).isSome = true ↔
          easternTimeOfDay (epochOfWithOffset dt o) < market_open_secs))
    ∧ (timeFilterStep 0 articleAt1400Z).isSome = true
    ∧ (timeFilterStep 0 articleAt1500Z).isSome = false := by
  refine ⟨?_, by decide, by decide⟩
  intro off a s dt o hpd hs hparse hoff
  have hdt : epochOf off dt = epochOfWithOffset dt o := by
    unfold epochOf
    rw [hoff, Option.getD_some]
  have hp : parsePublishedForFilter off s = some (epochOfWithOffset dt o) := by
    unfold parsePublishedForFilter
    rw [hparse]
    simp [hdt]
  unfold timeFilterStep
  rw [hpd]
  simp only [Option.getD_some]
  rw [if_neg hs, hp]
  by_cases h : easternTimeOfDay (epochOfWithOffset dt o) < market_open_secs
  · simp [h]
  · simp [h]

/-- Witness for C1 at the 2024-03-01T14:00:00Z article. -/
theorem c1_witness :
    (timeFilterStep 0 articleAt1400Z).isSome = true ↔
      easternTimeOfDay
        (epochOfWithOffset (PyDateTime.mk 2024 3 1 14 0 0 (some 0)) 0)
        < market_open_secs :=
  c1_time_filter_before_open.1 0 articleAt1400Z "2024-03-01T14:00:00Z"
    (PyDateTime.mk 2024 3 1 14 0 0 (some 0)) 0 rfl (by decide) (by rfl) rfl

/-- C2: deduplication keyed on article id produces one entry per
distinct identifier and, for each identifier, keeps the entry occurring
last in processing order. -/
theorem c2_dedup_last_wins :
    ∀ (l out : List Article), (∀ a ∈ l, a.id.isSome = true) →
      unique_articles l = .ok out →
      ((out.map Article.id).Nodup
        ∧ (∀ a ∈ l, ∃ b ∈ out, b.id = a.id)
        ∧ (∀ b ∈ out,
            (l.filter (fun x => x.id == b.id)).getLast? = some b)) := by
  intro l out hids hok
  obtain ⟨m, hm, rfl⟩ :
      ∃ m, buildById [] l = .ok m ∧ out = m.map Prod.snd := by
    unfold unique_articles at hok
    cases hbuild : buildById [] l with
    | error e =>
      rw [hbuild] at hok
      cases hok
    | ok m =>
      rw [hbuild] at hok
      refine ⟨m, rfl, ?_⟩
      injection hok with h
      exact h.symm
  have hnd := buildById_nodup l [] m (by simp) hm
  have hinv := buildById_id_inv l [] m (by simp) hm
  refine ⟨?_, ?_, ?_⟩
  · rw [List.map_map,
      List.map_congr_left
        (fun p hp => show (Article.id ∘ Prod.snd) p = (some ∘ Prod.fst) p
          from by simp [Function.comp, hinv p hp]),
      ← List.map_map]
    exact List.Nodup.map (Option.some_injective _) hnd
  · intro a ha
    obtain ⟨k, hk⟩ := Option.isSome_iff_exists.mp (hids a ha)
    have hmem : a ∈ l.filter (fun x => x.id == some k) :=
      List.mem_filter.mpr ⟨ha, by simp [hk]⟩
    obtain ⟨b, hb⟩ := Option.isSome_iff_exists.mp
      (List.getLast?_isSome.mpr (List.ne_nil_of_mem hmem))
    have hlook : List.lookup k m = some b := by
      rw [buildById_lookup l [] m k hm, hb]
      rfl
    have hbm : (k, b) ∈ m := lookup_mem hlook
    refine ⟨b, List.mem_map.mpr ⟨(k, b), hbm, rfl⟩, ?_⟩
    rw [hinv (k, b) hbm, hk]
  · intro b hb
    obtain ⟨p, hpm, hpb⟩ := List.mem_map.mp hb
    have hpm2 : (p.1, b) ∈ m := by
      rw [← hpb]
      simpa using hpm
    have hbid : b.id = some p.1 := hinv (p.1, b) hpm2
    have hlook : List.lookup p.1 m = some b := mem_lookup_of_nodup hnd hpm2
    rw [buildById_lookup l [] m p.1 hm,
      show List.lookup p.1 ([] : List (String × Article)) = none from rfl,
      Option.or_none] at hlook
    rw [hbid]
    exact hlook

/-- Witness for C2 on two fetched records sharing the id d1. -/
theorem c2_witness :
    (([dupSecond].map Article.id).Nodup
      ∧ (∀ a ∈ [dupFirst, dupSecond], ∃ b ∈ [dupSecond], b.id = a.id)
      ∧ (∀ b ∈ [dupSecond],
          ([dupFirst, dupSecond].filter (fun x => x.id == b.id)).getLast?
            = some b)) :=
  c2_dedup_last_wins [dupFirst, dupSecond] [dupSecond] (by decide) (by rfl)

/-- C3: the ranking is a stable descending multi-key sort: the output is
a permutation of the input, consecutive articles are ordered by the four
title-phrase indicators and then the publish instant (descending
lexicographic comparison), and any articles with identical sort keys,
hence identical indicators and timestamps, keep their relative input
order (expressed per key value through filter). -/
theorem c3_ranking_stable_descending :
    ∀ (off : Int) (l : List Article),
      (rankSort off l).Perm l
      ∧ (rankSort off l).Pairwise (fun a b => rankLe off a b = true)
      ∧ (∀ k : Nat × Nat × Nat × Nat × Int,
          (rankSort off l).filter (fun a => rankKey off a == k)
            = l.filter (fun a => rankKey off a == k)) := by
  intro off l
  have htrans : ∀ a b c : Article, rankLe off a b = true →
      rankLe off b c = true → rankLe off a c = true :=
    fun a b c => rankLe_trans off a b c
  have htot : ∀ a b : Article, (rankLe off a b || rankLe off b a) = true :=
    rankLe_total off
  refine ⟨List.mergeSort_perm l (rankLe off),
    List.sorted_mergeSort htrans htot l, ?_⟩
  intro k
  have hpw : (l.filter (fun a => rankKey off a == k)).Pairwise
      (fun a b => rankLe off a b = true) := by
    apply List.pairwise_of_forall_mem_list
    intro x hx y hy
    have hxk : rankKey off x = k := by
      simpa using (List.mem_filter.mp hx).2
    have hyk : rankKey off y = k := by
      simpa using (List.mem_filter.mp hy).2
    unfold rankLe
    rw [hxk, hyk]
    exact keyLe_refl k
  have hsl : (l.filter (fun a => rankKey off a == k)).Sublist
      (rankSort off l) :=
    List.sublist_mergeSort htrans htot hpw (List.filter_sublist l)
  have hfl : (l.filter (fun a => rankKey off a == k)).Sublist
      ((rankSort off l).filter (fun a => rankKey off a == k)) := by
    have h2 := List.Sublist.filter (fun a => rankKey off a == k) hsl
    rwa [List.filter_eq_self.mpr
      (fun x hx => (List.mem_filter.mp hx).2)] at h2
  have hlen : ((rankSort off l).filter (fun a => rankKey off a == k)).length
      = (l.filter (fun a => rankKey off a == k)).length :=
    (List.Perm.filter _ (List.mergeSort_perm l (rankLe off))).length_eq
  exact (List.Sublist.eq_of_length hfl hlen.symm).symm

/-- Witness for C3 on a concrete two-article list. -/
theorem c3_witness :
    (rankSort 0 [articleFutures, articleNoKeyword]).Perm
        [articleFutures, articleNoKeyword]
      ∧ (rankSort 0 [articleFutures, articleNoKeyword]).Pairwise
          (fun a b => rankLe 0 a b = true)
      ∧ (∀ k : Nat × Nat × Nat × Nat × Int,
          (rankSort 0 [articleFutures, articleNoKeyword]).filter
              (fun a => rankKey 0 a == k)
            = [articleFutures, articleNoKeyword].filter
                (fun a => rankKey 0 a == k)) :=
  c3_ranking_stable_descending 0 [articleFutures, articleNoKeyword]

/-- C4: when the keyword filter retains nothing the operation returns the
whole time-filtered collection; otherwise it returns exactly the
keyword-matching articles (as a permutation produced by the sort). -/
theorem c4_keyword_fallback :
    ∀ (off : Int) (morning : List Article),
      (summary_articles_of morning = [] →
        morningReturn off morning = morning)
      ∧ (summary_articles_of morning ≠ [] →
          (morningReturn off morning).Perm (summary_articles_of morning)) := by
  intro off morning
  constructor
  · exact fun h => morningReturn_of_nil h
  · intro h
    rw [morningReturn_of_ne h]
    exact List.mergeSort_perm _ _

/-- Witness for C4: the empty collection falls back to itself. -/
theorem c4_witness : morningReturn 0 [] = ([] : List Article) :=
  (c4_keyword_fallback 0 []).1 (by rfl)

/-- C5 counterexample: on a credential line carrying two quote layers
the resolver returns abc123, while removing exactly a single layer of
surrounding quotes would return the still-quoted text, so the resolver
does not strip exactly one layer. -/
theorem c5_counterexample :
    get_api_key none (some ["TIINGO_API_KEY=\"\"abc123\"\"\n"])
        = .ok "abc123"
      ∧ stripOneQuoteLayer "\"\"abc123\"\"" = "\"abc123\""
      ∧ ("abc123" : String) ≠ "\"abc123\"" :=
  ⟨by rfl, by rfl, by decide⟩

/-- C5 amended: the resolver strips every leading and trailing single or
double quote character of the resolved value (a single layer when only
one layer is present); in particular the line with value "abc123" in
double quotes resolves to abc123. -/
theorem c5_strip_quotes :
    (∀ (lines : List String) (v : String),
        scanEnvLines lines = some v → v ≠ "" →
        get_api_key none (some lines) = .ok (pyStripChars ['"', '\''] v))
      ∧ get_api_key none (some ["TIINGO_API_KEY=\"abc123\"\n"])
          = .ok "abc123" := by
  constructor
  · intro lines v hscan hv
    have hbody : get_api_key none (some lines) =
        match scanEnvLines lines with
        | none => .error "TIINGO_API_KEY not found in environment or .env"
        | some v =>
          if v = "" then
            .error "TIINGO_API_KEY not found in environment or .env"
          else .ok (pyStripChars ['"', '\''] v) := rfl
    rw [hbody, hscan]
    simp only []
    rw [if_neg hv]
  · rfl

/-- Witness for C5 at the documented example line. -/
theorem c5_witness :
    get_api_key none (some ["TIINGO_API_KEY=\"abc123\"\n"])
      = .ok (pyStripChars ['"', '\''] "\"abc123\"") :=
  c5_strip_quotes.1 ["TIINGO_API_KEY=\"abc123\"\n"] "\"abc123\""
    (by rfl) (by decide)

/-- C6 counterexample: with the data directory absent the morning sink
neither creates the parent directory nor writes the file, so the claim
that every file-writing sink creates missing parent directories fails on
the morning script. -/
theorem c6_counterexample :
    canOpenWrite fsNoDataDir morningOutputPath = false
      ∧ morningSink fsNoDataDir morningOutputPath "[]" = fsNoDataDir
      ∧ (morningSink fsNoDataDir morningOutputPath "[]").files = [] :=
  ⟨by decide, by decide, by decide⟩

/-- C6 amended: only the top-articles sink creates the parent directory
of the output path before writing; the morning (and news) sink opens the
path directly, succeeds only when the parent directory already exists,
and on failure logs the error and leaves the filesystem unchanged. -/
theorem c6_sink_parent_dirs :
    (∀ (fs : FileSystem) (out content : String),
        dirname out ∈ (topArticlesSink fs out content).dirs
          ∧ (out, content) ∈ (topArticlesSink fs out content).files)
      ∧ (∀ (fs : FileSystem) (out content : String),
          canOpenWrite fs out = false → morningSink fs out content = fs)
      ∧ (∀ (fs : FileSystem) (out content : String),
          canOpenWrite fs out = true →
            (out, content) ∈ (morningSink fs out content).files) := by
  refine ⟨?_, ?_, ?_⟩
  · intro fs out content
    constructor
    · simp [topArticlesSink, writeFile, makedirs]
    · simp [topArticlesSink, writeFile, makedirs]
  · intro fs out content h
    unfold morningSink
    rw [h]
    simp
  · intro fs out content h
    unfold morningSink
    rw [h]
    simp [writeFile]

/-- Witness for C6: the morning sink on the missing data directory. -/
theorem c6_witness :
    morningSink fsNoDataDir morningOutputPath "[]" = fsNoDataDir :=
  c6_sink_parent_dirs.2.1 fsNoDataDir morningOutputPath "[]" (by decide)

/-- C7: an HTTP or transport error inside the per-ticker loop leaves the
accumulated articles unchanged and the loop continues with the remaining
tickers, a successful fetch extends the accumulator, and the same error
in a one-shot fetch aborts the run with an error instead of returning
articles. -/
theorem c7_fetch_error_behaviour :
    (∀ (responses : String → FetchOutcome) (acc : List Article)
        (t : String) (rest : List String),
        (responses t).isError = true →
        tickerLoop responses acc (t :: rest)
          = tickerLoop responses acc rest)
      ∧ (∀ (responses : String → FetchOutcome) (acc : List Article)
          (t : String) (rest : List String) (d : List Article),
          responses t = .ok d →
          tickerLoop responses acc (t :: rest)
            = tickerLoop responses (acc ++ d) rest)
      ∧ (∀ outcome : FetchOutcome, outcome.isError = true →
          ∃ msg, oneShotFetch outcome = .error msg) := by
  refine ⟨?_, ?_, ?_⟩
  · intro responses acc t rest herr
    unfold tickerLoop
    rw [List.foldl_cons]
    congr 1
    unfold tickerLoopStep
    cases h : responses t with
    | ok d =>
      rw [h] at herr
      simp [FetchOutcome.isError] at herr
    | httpError status reason => rfl
    | transportError reason => rfl
  · intro responses acc t rest d hok
    unfold tickerLoop
    rw [List.foldl_cons]
    congr 1
    unfold tickerLoopStep
    rw [hok]
  · intro outcome herr
    cases outcome with
    | ok d => simp [FetchOutcome.isError] at herr
    | httpError status reason => exact ⟨_, rfl⟩
    | transportError reason => exact ⟨_, rfl⟩

/-- Witness for C7: the failing SPY fetch is skipped. -/
theorem c7_witness :
    tickerLoop respSpyFails [] ["SPY", "QQQ"]
      = tickerLoop respSpyFails [] ["QQQ"] :=
  c7_fetch_error_behaviour.1 respSpyFails [] "SPY" ["QQQ"] (by decide)

/-- C8 counterexample: a pre-market article matching no keyword is
returned through the fallback with a _market_relevance mapping whose
is_likely_summary entry is absent, so not every returned article carries
both boolean flags. -/
theorem c8_counterexample :
    morningPipeline 0 [articleNoKeyword] = .ok [articleNoKeywordEnriched]
      ∧ articleNoKeywordEnriched.marketRelevance
          = some (MarketRelevance.mk "2024-03-01 03:00:00 EST" true none) := by
  constructor
  · have h1 : unique_articles [articleNoKeyword] = .ok [articleNoKeyword] := by
      rfl
    have h2 : morning_articles 0 [articleNoKeyword]
        = [articleNoKeywordEnriched] := by rfl
    have h3 : summary_articles_of [articleNoKeywordEnriched] = [] := by rfl
    unfold morningPipeline
    rw [h1]
    simp only [Except.map]
    rw [h2, morningReturn_of_nil h3]
  · rfl

/-- C8 amended: every article returned by the morning-summary operation
carries a _market_relevance mapping with a formatted eastern timestamp
and is_pre_market true; the is_likely_summary flag is present (and true)
on all returned articles exactly when the keyword filter matched at
least one article, and absent from every returned article on the
fallback path. -/
theorem c8_relevance_fields :
    ∀ (off : Int) (u : List Article) (a : Article),
      a ∈ morningReturn off (morning_articles off u) →
      ∃ (t : Int) (flag : Option Bool),
        a.marketRelevance
            = some (MarketRelevance.mk (formatEastern t) true flag)
          ∧ (summary_articles_of (morning_articles off u) ≠ [] →
              flag = some true)
          ∧ (summary_articles_of (morning_articles off u) = [] →
              flag = none) := by
  intro off u a ha
  by_cases hs : summary_articles_of (morning_articles off u) = []
  · rw [morningReturn_of_nil hs] at ha
    rcases mem_morning_articles ha with ⟨t, ht⟩
    exact ⟨t, none, ht, fun h => absurd hs h, fun _ => rfl⟩
  · rw [morningReturn_of_ne hs] at ha
    unfold rankSort at ha
    have ha2 : a ∈ summary_articles_of (morning_articles off u) :=
      (List.mergeSort_perm _ _).mem_iff.mp ha
    rcases mem_summary_articles ha2 with ⟨t, ht⟩
    exact ⟨t, some true, ht, fun _ => rfl, fun h => absurd h hs⟩

/-- Witness for C8 at the futures article kept by the keyword filter. -/
theorem c8_witness :
    ∃ (t : Int) (flag : Option Bool),
      articleFuturesSummary.marketRelevance
          = some (MarketRelevance.mk (formatEastern t) true flag)
        ∧ (summary_articles_of (morning_articles 0 [articleFutures]) ≠ [] →
            flag = some true)
        ∧ (summary_articles_of (morning_articles 0 [articleFutures]) = [] →
            flag = none) :=
  c8_relevance_fields 0 [articleFutures] articleFuturesSummary (by
    have h2 : morning_articles 0 [articleFutures]
        = [articleFuturesEnriched] := by rfl
    have h3 : summary_articles_of [articleFuturesEnriched]
        = [articleFuturesSummary] := by rfl
    have hne : summary_articles_of (morning_articles 0 [articleFutures])
        ≠ [] := by
      rw [h2, h3]
      simp
    rw [morningReturn_of_ne hne, h2, h3]
    unfold rankSort
    rw [List.mergeSort_singleton]
    simp)

/-- C9: the console preview shows exactly the first ten articles (all of
them when fewer), a description longer than 150 characters is printed as
its first 147 characters plus a three-dot ellipsis for 150 characters in
total, and a description of at most 150 characters is printed
unchanged. -/
theorem c9_preview_truncation :
    (∀ l : List Article,
        (previewSlice l).length = min 10 l.length
          ∧ ∃ rest, previewSlice l ++ rest = l)
      ∧ (∀ d : String, 150 < d.length →
          truncateDescription d = ⟨d.data.take 147⟩ ++ "..."
            ∧ (truncateDescription d).length = 150)
      ∧ (∀ d : String, d.length ≤ 150 → truncateDescription d = d) := by
  refine ⟨?_, ?_, ?_⟩
  · intro l
    refine ⟨?_, ⟨l.drop 10, List.take_append_drop 10 l⟩⟩
    show (l.take 10).length = min 10 l.length
    exact List.length_take 10 l
  · intro d hd
    have heq : truncateDescription d = ⟨d.data.take 147⟩ ++ "..." := by
      unfold truncateDescription
      rw [if_pos hd]
    refine ⟨heq, ?_⟩
    rw [heq, String.length_append]
    have h1 : (⟨d.data.take 147⟩ : String).length = 147 := by
      show (d.data.take 147).length = 147
      rw [List.length_take]
      have h2 : d.length = d.data.length := rfl
      omega
    rw [h1]
    rfl
  · intro d hd
    unfold truncateDescription
    rw [if_neg (by omega)]

/-- Witness for C9 at a 151-character description. -/
theorem c9_witness :
    truncateDescription longDescription
        = ⟨longDescription.data.take 147⟩ ++ "..."
      ∧ (truncateDescription longDescription).length = 150 :=
  c9_preview_truncation.2.1 longDescription (by decide)

/-- C10: deduplication succeeds on every collection whose articles all
carry an id, and an article without id makes it raise, aborting the
filter stages of the morning script so that no output file is
written. -/
theorem c10_dedup_requires_id :
    (∀ l : List Article, (∀ a ∈ l, a.id.isSome = true) →
        ∃ out, unique_articles l = .ok out)
      ∧ unique_articles [articleNoId] = .error "KeyError: id"
      ∧ (∀ fs : FileSystem, morningMain 0 [articleNoId] fs = fs) := by
  refine ⟨?_, by rfl, ?_⟩
  · intro l hids
    rcases buildById_ok l [] hids with ⟨m, hm⟩
    refine ⟨m.map Prod.snd, ?_⟩
    unfold unique_articles
    rw [hm]
    rfl
  · intro fs
    show (match morningPipeline 0 [articleNoId] with
      | .error _ => fs
      | .ok arts =>
        if arts = [] then fs
        else morningSink fs morningOutputPath (serializeArticles arts)) = fs
    rw [show morningPipeline 0 [articleNoId] = .error "KeyError: id" from by
      rfl]

/-- Witness for C10: a single article carrying an id deduplicates. -/
theorem c10_witness :
    ∃ out, unique_articles [articleFutures] = .ok out :=
  c10_dedup_requires_id.1 [articleFutures] (by decide)

end AgentsPrediction
